import Mathlib

set_option maxRecDepth 20000

/-!
Shallow embedding of the victoria-metrics-writer Rust library (src/lib.rs).

The library buffers labeled metric samples as newline-delimited JSON and
flushes them with a single HTTP POST.  We model:

* serde_json's compact serialization of the `Metric` / `MetricMeta` structs
  (integer decimal printing, string escaping, struct fields in declaration
  order, `#[serde(flatten)]` over a `BTreeMap`);
* `BTreeMap<&str, &str>` as a key-sorted association list built by repeated
  insertion;
* `chrono::DateTime<Utc>` as seconds + subsecond nanoseconds, with
  `timestamp_millis` / `Utc.timestamp_millis_opt`;
* `MetricsWriter` with its `Option` byte buffer, `add`, and `send`.  The
  HTTP transport is an external collaborator, so `send` is parameterized by
  the outcome the transport produces and also returns the list of requests
  it issued.
-/

/-- Decimal digit accumulation, fuel-based so that it reduces in the kernel.
Models itoa-style decimal printing used by serde_json for integers. -/
def natDecAux : Nat → Nat → List Char
  | 0, _ => []
  | fuel + 1, n =>
    if n < 10 then [Nat.digitChar n]
    else natDecAux fuel (n / 10) ++ [Nat.digitChar (n % 10)]

/-- Decimal digits of a natural number, most significant first. -/
def natDec (n : Nat) : List Char :=
  natDecAux (n + 1) n

/-- Compact decimal rendering of an integer, as serde_json writes `i64`
and other integral values. -/
def intDec : Int → String
  | Int.ofNat n => ⟨natDec n⟩
  | Int.negSucc n => ⟨'-' :: natDec (n + 1)⟩

/-- Lowercase hex digit, as in serde_json's escape table. -/
def hexDigitChar (n : Nat) : Char :=
  Nat.digitChar n

/-- serde_json's escaping of a single character inside a JSON string:
quote and backslash get two-character escapes, the named control characters
get their short escapes, the remaining control characters below 0x20 get
a lowercase unicode escape, and everything else is passed through. -/
def escapeJsonChar (c : Char) : List Char :=
  if c = '"' then ['\\', '"']
  else if c = '\\' then ['\\', '\\']
  else if c = '\x08' then ['\\', 'b']
  else if c = '\x09' then ['\\', 't']
  else if c = '\x0a' then ['\\', 'n']
  else if c = '\x0c' then ['\\', 'f']
  else if c = '\x0d' then ['\\', 'r']
  else if c.toNat < 0x20 then
    ['\\', 'u', '0', '0', hexDigitChar (c.toNat / 16), hexDigitChar (c.toNat % 16)]
  else [c]

/-- A JSON string literal: opening quote, escaped contents, closing quote. -/
def jsonString (s : String) : String :=
  "\"" ++ String.mk ((s.data.map escapeJsonChar).flatten) ++ "\""

/-- One `"key":"value"` member of a JSON object, both sides strings. -/
def jsonMember (k v : String) : String :=
  jsonString k ++ ":" ++ jsonString v

/-- Concatenation of a list of strings; models sequential writes into the
underlying byte buffer. -/
def concatAll (l : List String) : String :=
  l.foldl (fun a b => a ++ b) ""

/-- A compact JSON array of integers, as serde_json writes a slice of
integral values. -/
def jsonIntArray (l : List Int) : String :=
  match l with
  | [] => "[]"
  | x :: xs => "[" ++ intDec x ++ concatAll (xs.map (fun y => "," ++ intDec y)) ++ "]"

/-- The number of elements of a serialized JSON array of scalars: zero for
the empty array, otherwise one more than the number of comma separators. -/
def jsonArrayElemCount (s : String) : Nat :=
  if s = "[]" then 0 else s.data.count ',' + 1

/-- `BTreeMap::insert` on a key-sorted association list: keeps the list
strictly sorted by key and replaces the value on an existing key. -/
def btreeInsert (k v : String) : List (String × String) → List (String × String)
  | [] => [(k, v)]
  | (k', v') :: rest =>
    @dite _ (@LT.lt String String.instLT k k') (String.decLt k k')
      (fun _ => (k, v) :: (k', v') :: rest)
      (fun _ =>
        if k = k' then (k, v) :: rest
        else (k', v') :: btreeInsert k v rest)

/-- A `BTreeMap` built by inserting the given pairs in order, as
`BTreeMap::from` does. -/
def btreeFromList (l : List (String × String)) : List (String × String) :=
  l.foldl (fun m kv => btreeInsert kv.1 kv.2 m) []

/-- `chrono::DateTime<Utc>`: seconds since the Unix epoch plus subsecond
nanoseconds. -/
structure DateTimeUtc where
  secs : Int
  nanos : Nat
deriving DecidableEq, Repr

/-- `Utc.timestamp_millis_opt(ms).unwrap()`: the instant at a given number
of milliseconds since the Unix epoch. -/
def timestampMillisOpt (ms : Int) : DateTimeUtc :=
  { secs := ms / 1000, nanos := ((ms % 1000) * 1000000).toNat }

/-- `DateTime::timestamp_millis()`: seconds times 1000 plus the subsecond
milliseconds. -/
def DateTimeUtc.timestampMillis (dt : DateTimeUtc) : Int :=
  dt.secs * 1000 + (dt.nanos / 1000000 : Nat)

/-- Serialization of `MetricMeta` (the `metric` sub-object): field `name`
renamed to `__name__` first, then the flattened `BTreeMap` entries in the
order the map iterates them. -/
def serializeMeta (name : String) (labels : List (String × String)) : String :=
  "\x7b" ++ jsonMember "__name__" name
    ++ concatAll (labels.map (fun kv => "," ++ jsonMember kv.1 kv.2))
    ++ "\x7d"

/-- Serialization of one `Metric` record: top-level keys `metric`,
`values`, `timestamps` in struct declaration order, the timestamps mapped
through `timestamp_millis`. -/
def serializeMetric (name : String) (labels : List (String × String))
    (values : List Int) (timestamps : List DateTimeUtc) : String :=
  "\x7b" ++ jsonString "metric" ++ ":" ++ serializeMeta name labels
    ++ "," ++ jsonString "values" ++ ":" ++ jsonIntArray values
    ++ "," ++ jsonString "timestamps" ++ ":"
    ++ jsonIntArray (timestamps.map DateTimeUtc.timestampMillis)
    ++ "\x7d"

/-- The status-code variant of reqwest's `StatusCode::is_success`:
the 2xx class. -/
def isSuccessStatus (code : Nat) : Bool :=
  200 ≤ code && code < 300

/-- The `SendError` enum of the library. -/
inductive SendError where
  | RequestError (transportMsg : String)
  | InvalidResponseStatusCode (code : Nat)
deriving DecidableEq, Repr

/-- What the HTTP transport collaborator does with a request: either the
server answers with some status code, or the request itself fails. -/
inductive HttpOutcome where
  | status (code : Nat)
  | failure (transportMsg : String)
deriving DecidableEq, Repr

/-- An HTTP POST issued by `send`. -/
structure HttpRequest where
  url : String
  body : String
deriving DecidableEq, Repr

/-- The `MetricsWriter` struct: target URL and the optional byte buffer
(`writer : Option<Writer<Vec<u8>>>`); the buffered bytes are modeled as a
string.  The reqwest client handle carries no state relevant here. -/
structure MetricsWriter where
  url : String
  writer : Option String
deriving DecidableEq, Repr

/-- `MetricsWriter::new(host)`. -/
def MetricsWriter.new (host : String) : MetricsWriter :=
  { url := "http://" ++ host ++ "/api/v1/import", writer := none }

/-- `MetricsWriter::add`: materialize the buffer if absent, then append the
serialized record followed by CRLF. -/
def MetricsWriter.add (w : MetricsWriter) (name : String)
    (labels : List (String × String)) (values : List Int)
    (timestamps : List DateTimeUtc) : MetricsWriter :=
  { w with
    writer := some (w.writer.getD "" ++ serializeMetric name labels values timestamps ++ "\r\n") }

/-- `MetricsWriter::send`: if a buffer exists, take it (leaving `None`),
POST it to the stored URL and interpret the transport outcome; otherwise do
nothing and succeed.  Returns the updated writer, the requests issued, and
the `Result`. -/
def MetricsWriter.send (w : MetricsWriter) (outcome : HttpOutcome) :
    MetricsWriter × List HttpRequest × Except SendError Unit :=
  match w.writer with
  | none => ({ w with writer := none }, [], Except.ok ())
  | some buf =>
    let w' : MetricsWriter := { w with writer := none }
    let req : HttpRequest := { url := w.url, body := buf }
    match outcome with
    | HttpOutcome.failure msg => (w', [req], Except.error (SendError.RequestError msg))
    | HttpOutcome.status code =>
      if isSuccessStatus code then (w', [req], Except.ok ())
      else (w', [req], Except.error (SendError.InvalidResponseStatusCode code))

/-- A single `add` call, for reasoning about call sequences. -/
structure AddCall where
  name : String
  labels : List (String × String)
  values : List Int
  timestamps : List DateTimeUtc

/-- Folding a sequence of `add` calls over a writer. -/
def MetricsWriter.addAll (w : MetricsWriter) (calls : List AddCall) : MetricsWriter :=
  calls.foldl (fun w c => w.add c.name c.labels c.values c.timestamps) w

/-- C1: calling `add` with name `up`, labels `job=node_exporter`,
`instance=localhost:9100`, values `[0,0,0]` and the three millisecond
timestamps appends to the buffer exactly the compact JSON line of
Scenario A, with top-level keys in the order `metric`, `values`,
`timestamps`, terminated by CRLF. -/
theorem add_scenario_a_appends_exact_line (w : MetricsWriter) :
    (w.add "up" (btreeFromList [("job", "node_exporter"), ("instance", "localhost:9100")])
        [0, 0, 0]
        [timestampMillisOpt 1549891472010, timestampMillisOpt 1549891487724,
          timestampMillisOpt 1549891503438]).writer =
      some (w.writer.getD "" ++
        "\x7b\"metric\":\x7b\"__name__\":\"up\",\"instance\":\"localhost:9100\",\"job\":\"node_exporter\"\x7d,\"values\":[0,0,0],\"timestamps\":[1549891472010,1549891487724,1549891503438]\x7d\r\n") := by
  have h :
      serializeMetric "up"
          (btreeFromList [("job", "node_exporter"), ("instance", "localhost:9100")])
          [0, 0, 0]
          [timestampMillisOpt 1549891472010, timestampMillisOpt 1549891487724,
            timestampMillisOpt 1549891503438] ++ "\r\n" =
        "\x7b\"metric\":\x7b\"__name__\":\"up\",\"instance\":\"localhost:9100\",\"job\":\"node_exporter\"\x7d,\"values\":[0,0,0],\"timestamps\":[1549891472010,1549891487724,1549891503438]\x7d\r\n" := by
    decide
  simp only [MetricsWriter.add]
  rw [String.append_assoc, h]

/-- C4: `send` on an empty buffer issues no HTTP request and returns
success. -/
theorem send_empty_buffer_no_request (w : MetricsWriter) (outcome : HttpOutcome)
    (h : w.writer = none) :
    (w.send outcome).2.1 = [] ∧ (w.send outcome).2.2 = Except.ok () := by
  simp [MetricsWriter.send, h]

theorem send_empty_buffer_no_request_witness :
    ((MetricsWriter.new "localhost:8428").send (HttpOutcome.status 200)).2.1 = [] ∧
    ((MetricsWriter.new "localhost:8428").send (HttpOutcome.status 200)).2.2 = Except.ok () :=
  send_empty_buffer_no_request (MetricsWriter.new "localhost:8428") (HttpOutcome.status 200) rfl

/-- C5: when `send` issues the request and the server responds, a 2xx
status yields success and any other status yields
`InvalidResponseStatusCode` carrying the actual code. -/
theorem send_status_result (w : MetricsWriter) (buf : String) (code : Nat)
    (h : w.writer = some buf) :
    (w.send (HttpOutcome.status code)).2.1 = [{ url := w.url, body := buf }] ∧
    (w.send (HttpOutcome.status code)).2.2 =
      (if isSuccessStatus code then Except.ok ()
       else Except.error (SendError.InvalidResponseStatusCode code)) := by
  by_cases hc : isSuccessStatus code <;> simp [MetricsWriter.send, h, hc]

theorem send_status_result_witness :
    (({ url := "http://localhost:8428/api/v1/import", writer := some "line" } :
        MetricsWriter).send (HttpOutcome.status 500)).2.1 =
      [{ url := "http://localhost:8428/api/v1/import", body := "line" }] ∧
    (({ url := "http://localhost:8428/api/v1/import", writer := some "line" } :
        MetricsWriter).send (HttpOutcome.status 500)).2.2 =
      (if isSuccessStatus 500 then Except.ok ()
       else Except.error (SendError.InvalidResponseStatusCode 500)) :=
  send_status_result { url := "http://localhost:8428/api/v1/import", writer := some "line" }
    "line" 500 rfl

/-- C6: when the transport fails, `send` returns `RequestError` wrapping
the transport failure (and in particular never success). -/
theorem send_transport_failure_error (w : MetricsWriter) (buf msg : String)
    (h : w.writer = some buf) :
    (w.send (HttpOutcome.failure msg)).2.2 = Except.error (SendError.RequestError msg) ∧
    (w.send (HttpOutcome.failure msg)).2.1 = [{ url := w.url, body := buf }] := by
  simp [MetricsWriter.send, h]

theorem send_transport_failure_error_witness :
    (({ url := "u", writer := some "b" } : MetricsWriter).send
        (HttpOutcome.failure "connection refused")).2.2 =
      Except.error (SendError.RequestError "connection refused") ∧
    (({ url := "u", writer := some "b" } : MetricsWriter).send
        (HttpOutcome.failure "connection refused")).2.1 = [{ url := "u", body := "b" }] :=
  send_transport_failure_error { url := "u", writer := some "b" } "b" "connection refused" rfl

/-- C7: after `send` on a non-empty buffer, whatever the outcome, the
writer is exactly a freshly flushed writer for the same URL: the buffer is
gone and is not restored on failure. -/
theorem send_clears_buffer_writer_reusable (w : MetricsWriter) (buf : String)
    (outcome : HttpOutcome) (h : w.writer = some buf) :
    (w.send outcome).1 = { url := w.url, writer := none } := by
  cases outcome with
  | status code => by_cases hc : isSuccessStatus code <;> simp [MetricsWriter.send, h, hc]
  | failure msg => simp [MetricsWriter.send, h]

theorem send_clears_buffer_writer_reusable_witness :
    (({ url := "u", writer := some "b" } : MetricsWriter).send (HttpOutcome.status 500)).1 =
      { url := "u", writer := none } :=
  send_clears_buffer_writer_reusable { url := "u", writer := some "b" } "b"
    (HttpOutcome.status 500) rfl

/-- Pulling a leading accumulator out of a string-concatenation fold. -/
theorem foldl_append_shift (ys : List String) :
    ∀ a b : String, ys.foldl (fun p q => p ++ q) (a ++ b) =
      a ++ ys.foldl (fun p q => p ++ q) b := by
  induction ys with
  | nil => intro a b; rfl
  | cons y ys ih =>
    intro a b
    show List.foldl (fun p q => p ++ q) (a ++ b ++ y) ys =
      a ++ List.foldl (fun p q => p ++ q) (b ++ y) ys
    rw [String.append_assoc, ih a (b ++ y)]

theorem concatAll_cons (x : String) (xs : List String) :
    concatAll (x :: xs) = x ++ concatAll xs := by
  show List.foldl (fun p q => p ++ q) ("" ++ x) xs = x ++ concatAll xs
  rw [String.empty_append]
  conv_lhs => rw [show x = x ++ "" from (String.append_empty x).symm]
  rw [foldl_append_shift xs x ""]
  rfl

/-- The buffer contents after folding any sequence of `add` calls. -/
theorem addAll_writer_getD (calls : List AddCall) :
    ∀ w : MetricsWriter, (w.addAll calls).writer.getD "" =
      w.writer.getD "" ++ concatAll (calls.map fun c =>
        serializeMetric c.name c.labels c.values c.timestamps ++ "\r\n") := by
  induction calls with
  | nil =>
    intro w
    show w.writer.getD "" = w.writer.getD "" ++ concatAll []
    rw [show concatAll [] = "" from rfl, String.append_empty]
  | cons c cs ih =>
    intro w
    show ((w.add c.name c.labels c.values c.timestamps).addAll cs).writer.getD "" = _
    rw [ih]
    show w.writer.getD "" ++ serializeMetric c.name c.labels c.values c.timestamps ++ "\r\n"
        ++ concatAll (cs.map fun c =>
          serializeMetric c.name c.labels c.values c.timestamps ++ "\r\n") = _
    rw [List.map_cons, concatAll_cons]
    simp [String.append_assoc]

/-- C3: after any sequence of N `add` calls on a fresh writer with no
intervening `send`, the buffer holds exactly the N serialized records in
call order, each followed by CRLF and nothing else. -/
theorem buffer_after_adds_is_records_in_order (host : String) (calls : List AddCall) :
    ((MetricsWriter.new host).addAll calls).writer.getD "" =
      concatAll (calls.map fun c =>
        serializeMetric c.name c.labels c.values c.timestamps ++ "\r\n") := by
  rw [addAll_writer_getD]
  show "" ++ _ = _
  rw [String.empty_append]

/-- C9: each timestamp is serialized, at its input position, as its exact
number of milliseconds since the Unix epoch, and converting a millisecond
integer to an instant and back is lossless. -/
theorem timestamps_serialized_as_epoch_millis :
    (∀ (name : String) (labels : List (String × String)) (values : List Int)
        (tss : List DateTimeUtc),
      serializeMetric name labels values tss =
        "\x7b" ++ jsonString "metric" ++ ":" ++ serializeMeta name labels
          ++ "," ++ jsonString "values" ++ ":" ++ jsonIntArray values
          ++ "," ++ jsonString "timestamps" ++ ":"
          ++ jsonIntArray (tss.map DateTimeUtc.timestampMillis)
          ++ "\x7d") ∧
    (∀ (tss : List DateTimeUtc) (i : Nat),
      (tss.map DateTimeUtc.timestampMillis)[i]? =
        (tss[i]?).map DateTimeUtc.timestampMillis) ∧
    (∀ ms : Int, (timestampMillisOpt ms).timestampMillis = ms) ∧
    (∀ dt : DateTimeUtc,
      (timestampMillisOpt dt.timestampMillis).timestampMillis = dt.timestampMillis) := by
  refine ⟨fun _ _ _ _ => rfl, fun tss i => ?_, fun ms => ?_, fun dt => ?_⟩
  · simp [List.getElem?_map]
  · simp only [timestampMillisOpt, DateTimeUtc.timestampMillis]
    omega
  · simp only [timestampMillisOpt, DateTimeUtc.timestampMillis]
    omega


/-- No decimal or hex digit character is a comma. -/
theorem digitChar_lt_ne_comma (n : Nat) (h : n < 16) : Nat.digitChar n ≠ ',' := by
  have key : ∀ m : Fin 16, Nat.digitChar m.val ≠ ',' := by decide
  exact key ⟨n, h⟩

/-- Every character produced by the decimal printer is a digit, hence not
a comma. -/
theorem natDecAux_mem_ne_comma :
    ∀ (fuel n : Nat) (c : Char), c ∈ natDecAux fuel n → c ≠ ',' := by
  intro fuel
  induction fuel with
  | zero => intro n c hc; simp [natDecAux] at hc
  | succ fuel ih =>
    intro n c hc
    simp only [natDecAux] at hc
    split at hc
    · rename_i h
      simp only [List.mem_singleton] at hc
      subst hc
      exact digitChar_lt_ne_comma n (by omega)
    · rcases List.mem_append.mp hc with h1 | h1
      · exact ih _ _ h1
      · simp only [List.mem_singleton] at h1
        subst h1
        exact digitChar_lt_ne_comma _ (by omega)

theorem intDec_data_ne_comma (i : Int) (c : Char) (hc : c ∈ (intDec i).data) : c ≠ ',' := by
  cases i with
  | ofNat n => exact natDecAux_mem_ne_comma _ _ _ hc
  | negSucc n =>
    rcases List.mem_cons.mp hc with h | h
    · subst h; decide
    · exact natDecAux_mem_ne_comma _ _ _ h

theorem intDec_count_comma (i : Int) : (intDec i).data.count ',' = 0 :=
  List.count_eq_zero.mpr (fun h => (intDec_data_ne_comma i ',' h) rfl)

theorem natDec_ne_nil (n : Nat) : natDec n ≠ [] := by
  show natDecAux (n + 1) n ≠ []
  simp only [natDecAux]
  split
  · simp
  · simp

theorem intDec_data_ne_nil (i : Int) : (intDec i).data ≠ [] := by
  cases i with
  | ofNat n => exact natDec_ne_nil n
  | negSucc n => simp [intDec]

/-- Comma-prefixed trailing elements contribute exactly one comma each. -/
theorem concat_sep_count (xs : List Int) :
    (concatAll (xs.map fun y => "," ++ intDec y)).data.count ',' = xs.length := by
  induction xs with
  | nil => rfl
  | cons x xs ih =>
    have h1 : ("," ++ intDec x).data.count ',' = 1 := by
      rw [String.data_append, List.count_append, intDec_count_comma]
      decide
    rw [List.map_cons, concatAll_cons, String.data_append, List.count_append, h1, ih,
      List.length_cons]
    omega

/-- The serialized integer array has exactly as many elements as the input
list. -/
theorem jsonIntArray_elem_count (l : List Int) :
    jsonArrayElemCount (jsonIntArray l) = l.length := by
  cases l with
  | nil => rfl
  | cons x xs =>
    have hx : (intDec x).data ≠ [] := intDec_data_ne_nil x
    have hne : jsonIntArray (x :: xs) ≠ "[]" := by
      intro h
      have hlen := congrArg (fun s => s.data.length) h
      simp only [jsonIntArray, String.data_append, List.length_append] at hlen
      have hxl : (intDec x).data.length ≠ 0 := fun h0 => hx (List.length_eq_zero.mp h0)
      have e1 : "[".data.length = 1 := by decide
      have e2 : "]".data.length = 1 := by decide
      have e3 : "[]".data.length = 2 := by decide
      rw [e1, e2, e3] at hlen
      omega
    rw [jsonArrayElemCount, if_neg hne]
    show ("[" ++ intDec x ++ concatAll (xs.map fun y => "," ++ intDec y) ++ "]").data.count ','
        + 1 = xs.length + 1
    simp only [String.data_append, List.count_append]
    rw [intDec_count_comma, concat_sep_count]
    have hb1 : ("[".data).count ',' = 0 := by decide
    have hb2 : ("]".data).count ',' = 0 := by decide
    rw [hb1, hb2]
    omega

/-- C8: `add` performs no length validation: with M values and K
timestamps, M different from K, the record is appended anyway and the
serialized arrays have exactly M and K elements respectively. -/
theorem add_no_length_validation (w : MetricsWriter) (name : String)
    (labels : List (String × String)) (values : List Int) (timestamps : List DateTimeUtc)
    (h : values.length ≠ timestamps.length) :
    (w.add name labels values timestamps).writer =
      some (w.writer.getD "" ++ serializeMetric name labels values timestamps ++ "\r\n") ∧
    serializeMetric name labels values timestamps =
      "\x7b" ++ jsonString "metric" ++ ":" ++ serializeMeta name labels
        ++ "," ++ jsonString "values" ++ ":" ++ jsonIntArray values
        ++ "," ++ jsonString "timestamps" ++ ":"
        ++ jsonIntArray (timestamps.map DateTimeUtc.timestampMillis) ++ "\x7d" ∧
    jsonArrayElemCount (jsonIntArray values) = values.length ∧
    jsonArrayElemCount (jsonIntArray (timestamps.map DateTimeUtc.timestampMillis)) =
      timestamps.length := by
  refine ⟨rfl, rfl, jsonIntArray_elem_count values, ?_⟩
  rw [jsonIntArray_elem_count, List.length_map]

theorem add_no_length_validation_witness :
    ((MetricsWriter.new "localhost:8428").add "m" [] [0] []).writer =
      some ((MetricsWriter.new "localhost:8428").writer.getD "" ++
        serializeMetric "m" [] [0] [] ++ "\r\n") ∧
    serializeMetric "m" [] [0] [] =
      "\x7b" ++ jsonString "metric" ++ ":" ++ serializeMeta "m" []
        ++ "," ++ jsonString "values" ++ ":" ++ jsonIntArray [0]
        ++ "," ++ jsonString "timestamps" ++ ":"
        ++ jsonIntArray (([] : List DateTimeUtc).map DateTimeUtc.timestampMillis) ++ "\x7d" ∧
    jsonArrayElemCount (jsonIntArray [0]) = [0].length ∧
    jsonArrayElemCount (jsonIntArray (([] : List DateTimeUtc).map DateTimeUtc.timestampMillis)) =
      ([] : List DateTimeUtc).length :=
  add_no_length_validation (MetricsWriter.new "localhost:8428") "m" [] [0] [] (by decide)

/-- The core list-lexicographic order on strings (used by the embedded
comparator) agrees with the ambient order. -/
theorem coreLt_iff (a b : String) : @LT.lt String String.instLT a b ↔ a < b := by
  rw [String.lt_iff_toList_lt]
  show List.lt a.data b.data ↔ List.Lex (fun c d => c < d) a.toList b.toList
  exact List.lt_iff_lex_lt a.data b.data

theorem btreeInsert_cons_lt {k k' : String} (v v' : String)
    (rest : List (String × String)) (h : k < k') :
    btreeInsert k v ((k', v') :: rest) = (k, v) :: (k', v') :: rest := by
  simp only [btreeInsert]
  rw [dif_pos ((coreLt_iff k k').mpr h)]

theorem btreeInsert_cons_eq (k v v' : String) (rest : List (String × String)) :
    btreeInsert k v ((k, v') :: rest) = (k, v) :: rest := by
  simp only [btreeInsert]
  have hnlt : ¬ @LT.lt String String.instLT k k :=
    fun hlt => absurd ((coreLt_iff k k).mp hlt) (lt_irrefl k)
  rw [dif_neg hnlt]
  simp

theorem btreeInsert_cons_gt {k k' : String} (v v' : String)
    (rest : List (String × String)) (h : k' < k) :
    btreeInsert k v ((k', v') :: rest) = (k', v') :: btreeInsert k v rest := by
  simp only [btreeInsert]
  have hnlt : ¬ @LT.lt String String.instLT k k' :=
    fun hlt => absurd ((coreLt_iff k k').mp hlt) (lt_asymm h)
  rw [dif_neg hnlt, if_neg (ne_of_gt h)]

/-- The head of an insertion result is the inserted pair or the old head. -/
theorem btreeInsert_head_cases (k v : String) :
    ∀ (m : List (String × String)) (y : String × String),
      y ∈ (btreeInsert k v m).head? → y = (k, v) ∨ y ∈ m.head? := by
  intro m y hy
  cases m with
  | nil =>
    simp only [btreeInsert, List.head?_cons] at hy
    exact Or.inl (Option.mem_some_iff.mp hy).symm
  | cons p rest =>
    obtain ⟨k', v'⟩ := p
    rcases lt_trichotomy k k' with hlt | heq | hgt
    · rw [btreeInsert_cons_lt _ _ _ hlt, List.head?_cons] at hy
      exact Or.inl (Option.mem_some_iff.mp hy).symm
    · subst heq
      rw [btreeInsert_cons_eq, List.head?_cons] at hy
      exact Or.inl (Option.mem_some_iff.mp hy).symm
    · rw [btreeInsert_cons_gt _ _ _ hgt, List.head?_cons] at hy
      right
      rw [List.head?_cons]
      exact hy

/-- Insertion preserves strict sortedness by key. -/
theorem chain'_btreeInsert (k v : String) :
    ∀ m : List (String × String),
      List.Chain' (fun a b : String × String => a.1 < b.1) m →
      List.Chain' (fun a b : String × String => a.1 < b.1) (btreeInsert k v m) := by
  intro m
  induction m with
  | nil => intro _; simp [btreeInsert]
  | cons p rest ih =>
    obtain ⟨k', v'⟩ := p
    intro hch
    rcases lt_trichotomy k k' with hlt | heq | hgt
    · rw [btreeInsert_cons_lt _ _ _ hlt]
      exact List.chain'_cons.mpr ⟨hlt, hch⟩
    · subst heq
      rw [btreeInsert_cons_eq]
      rcases List.chain'_cons'.mp hch with ⟨hhead, htail⟩
      exact List.chain'_cons'.mpr ⟨hhead, htail⟩
    · rw [btreeInsert_cons_gt _ _ _ hgt]
      rcases List.chain'_cons'.mp hch with ⟨hhead, htail⟩
      refine List.chain'_cons'.mpr ⟨?_, ih htail⟩
      intro y hy
      rcases btreeInsert_head_cases k v rest y hy with rfl | hmem
      · exact hgt
      · exact hhead y hmem

/-- Inserting a fresh key is, up to permutation, consing the pair. -/
theorem btreeInsert_perm (k v : String) :
    ∀ m : List (String × String), k ∉ m.map Prod.fst →
      (btreeInsert k v m).Perm ((k, v) :: m) := by
  intro m
  induction m with
  | nil => intro _; exact List.Perm.refl _
  | cons p rest ih =>
    obtain ⟨k', v'⟩ := p
    intro hk
    rw [List.map_cons] at hk
    have hk1 : k ≠ k' := fun he => hk (he ▸ List.mem_cons_self _ _)
    have hk2 : k ∉ rest.map Prod.fst := fun hm => hk (List.mem_cons_of_mem _ hm)
    rcases lt_trichotomy k k' with hlt | heq | hgt
    · rw [btreeInsert_cons_lt _ _ _ hlt]
    · exact absurd heq hk1
    · rw [btreeInsert_cons_gt _ _ _ hgt]
      exact ((ih hk2).cons (k', v')).trans (List.Perm.swap _ _ _)

/-- Folding insertions of pairwise-fresh keys permutes to concatenation. -/
theorem btreeFold_perm :
    ∀ l m : List (String × String),
      (l.map Prod.fst ++ m.map Prod.fst).Nodup →
      (List.foldl (fun acc kv => btreeInsert kv.1 kv.2 acc) m l).Perm (l ++ m) := by
  intro l
  induction l with
  | nil => intro m _; exact List.Perm.refl m
  | cons a l ih =>
    intro m hnd
    have hnd' : (a.1 :: (l.map Prod.fst ++ m.map Prod.fst)).Nodup := by simpa using hnd
    have ha : a.1 ∉ m.map Prod.fst :=
      fun hm => (List.nodup_cons.mp hnd').1 (List.mem_append_right _ hm)
    have hperm : (btreeInsert a.1 a.2 m).Perm ((a.1, a.2) :: m) := btreeInsert_perm _ _ m ha
    have hkeys : ((btreeInsert a.1 a.2 m).map Prod.fst).Perm (a.1 :: m.map Prod.fst) := by
      simpa using hperm.map Prod.fst
    have hnd2 : (l.map Prod.fst ++ (btreeInsert a.1 a.2 m).map Prod.fst).Nodup := by
      have hp2 : (l.map Prod.fst ++ (btreeInsert a.1 a.2 m).map Prod.fst).Perm
          (a.1 :: (l.map Prod.fst ++ m.map Prod.fst)) :=
        (List.Perm.append_left _ hkeys).trans List.perm_middle
      exact hp2.nodup_iff.mpr hnd'
    show (List.foldl (fun acc kv => btreeInsert kv.1 kv.2 acc)
        (btreeInsert a.1 a.2 m) l).Perm ((a :: l) ++ m)
    exact (ih (btreeInsert a.1 a.2 m) hnd2).trans
      ((List.Perm.append_left l hperm).trans List.perm_middle)

/-- A map built from pairs with distinct keys holds exactly those pairs. -/
theorem btreeFromList_perm (l : List (String × String)) (h : (l.map Prod.fst).Nodup) :
    (btreeFromList l).Perm l := by
  have hp := btreeFold_perm l [] (by simpa using h)
  simpa using hp

/-- The built map is always strictly sorted by key. -/
theorem chain'_btreeFromList (l : List (String × String)) :
    List.Chain' (fun a b : String × String => a.1 < b.1) (btreeFromList l) := by
  have key : ∀ l m : List (String × String),
      List.Chain' (fun a b : String × String => a.1 < b.1) m →
      List.Chain' (fun a b : String × String => a.1 < b.1)
        (List.foldl (fun acc kv => btreeInsert kv.1 kv.2 acc) m l) := by
    intro l
    induction l with
    | nil => intro m h; exact h
    | cons a l ih => intro m h; exact ih _ (chain'_btreeInsert a.1 a.2 m h)
  exact key l [] List.chain'_nil

/-- C2: the serialized `metric` object lists `__name__` first and then the
label pairs in strictly increasing (lexicographic) key order, and the built
map — hence the serialized output — is independent of insertion order. -/
theorem serialized_labels_lexicographic (name : String) (l l' : List (String × String))
    (hnd : (l.map Prod.fst).Nodup) (hp : l.Perm l') :
    btreeFromList l = btreeFromList l' ∧
    (btreeFromList l).Perm l ∧
    List.Chain' (fun a b : String × String => a.1 < b.1) (btreeFromList l) ∧
    serializeMeta name (btreeFromList l) =
      "\x7b" ++ jsonMember "__name__" name ++
        concatAll ((btreeFromList l).map fun kv => "," ++ jsonMember kv.1 kv.2) ++ "\x7d" := by
  have hnd' : (l'.map Prod.fst).Nodup := ((hp.map Prod.fst).nodup_iff).mp hnd
  have p1 : (btreeFromList l).Perm l := btreeFromList_perm l hnd
  have p2 : (btreeFromList l').Perm l' := btreeFromList_perm l' hnd'
  have s1 := chain'_btreeFromList l
  have s2 := chain'_btreeFromList l'
  have heq : btreeFromList l = btreeFromList l' := by
    haveI : IsAntisymm (String × String) (fun a b => a.1 < b.1) :=
      ⟨fun a b h1 h2 => absurd h2 (lt_asymm h1)⟩
    haveI : IsTrans (String × String) (fun a b => a.1 < b.1) :=
      ⟨fun a b c h1 h2 => lt_trans h1 h2⟩
    exact List.eq_of_perm_of_sorted (p1.trans (hp.trans p2.symm))
      (List.chain'_iff_pairwise.mp s1) (List.chain'_iff_pairwise.mp s2)
  exact ⟨heq, p1, s1, rfl⟩

theorem serialized_labels_lexicographic_witness :
    btreeFromList [("job", "node_exporter"), ("instance", "localhost:9100")] =
      btreeFromList [("instance", "localhost:9100"), ("job", "node_exporter")] ∧
    (btreeFromList [("job", "node_exporter"), ("instance", "localhost:9100")]).Perm
      [("job", "node_exporter"), ("instance", "localhost:9100")] ∧
    List.Chain' (fun a b : String × String => a.1 < b.1)
      (btreeFromList [("job", "node_exporter"), ("instance", "localhost:9100")]) ∧
    serializeMeta "up" (btreeFromList [("job", "node_exporter"), ("instance", "localhost:9100")]) =
      "\x7b" ++ jsonMember "__name__" "up" ++
        concatAll ((btreeFromList [("job", "node_exporter"), ("instance", "localhost:9100")]).map
          fun kv => "," ++ jsonMember kv.1 kv.2) ++ "\x7d" :=
  serialized_labels_lexicographic "up"
    [("job", "node_exporter"), ("instance", "localhost:9100")]
    [("instance", "localhost:9100"), ("job", "node_exporter")]
    (by decide)
    (List.Perm.swap ("instance", "localhost:9100") ("job", "node_exporter") [])

/-- Concatenation distributes over list append. -/
theorem concatAll_append (l₁ l₂ : List String) :
    concatAll (l₁ ++ l₂) = concatAll l₁ ++ concatAll l₂ := by
  induction l₁ with
  | nil => exact (String.empty_append _).symm
  | cons x l₁ ih =>
    rw [List.cons_append, concatAll_cons, concatAll_cons, ih, String.append_assoc]

/-- C10: when the label map itself contains the key `__name__`, the
serialized `metric` object carries the key twice — once bound to the `name`
argument and once to the label value — so its key list is not duplicate-free. -/
theorem name_label_duplicated_key (name v : String) (m : List (String × String))
    (h : ("__name__", v) ∈ m) :
    ¬ ("__name__" :: m.map Prod.fst).Nodup ∧
    ∃ s t : String,
      serializeMeta name m =
        "\x7b" ++ jsonMember "__name__" name ++ s
          ++ ("," ++ jsonMember "__name__" v) ++ t ++ "\x7d" := by
  constructor
  · intro hnd
    exact (List.nodup_cons.mp hnd).1 (List.mem_map_of_mem Prod.fst h)
  · obtain ⟨m₁, m₂, rfl⟩ := List.append_of_mem h
    refine ⟨concatAll (m₁.map fun kv => "," ++ jsonMember kv.1 kv.2),
      concatAll (m₂.map fun kv => "," ++ jsonMember kv.1 kv.2), ?_⟩
    simp only [serializeMeta, List.map_append, concatAll_append, List.map_cons, concatAll_cons]
    simp [String.append_assoc]

theorem name_label_duplicated_key_witness :
    ¬ ("__name__" :: ([("__name__", "x")].map Prod.fst)).Nodup ∧
    ∃ s t : String,
      serializeMeta "up" [("__name__", "x")] =
        "\x7b" ++ jsonMember "__name__" "up" ++ s
          ++ ("," ++ jsonMember "__name__" "x") ++ t ++ "\x7d" :=
  name_label_duplicated_key "up" "x" [("__name__", "x")] (List.mem_singleton.mpr rfl)
